import Mathlib

set_option linter.unusedVariables false

/-!
Verification development for the log correlation and streaming engine of the
RunsOn CLI (`internal/cli/logs.go`).

The Go code is shallowly embedded:

* pure data (`logEvent`, the collector state, `FilterLogEventsInput`, …) becomes
  Lean structures;
* the concurrently executed pieces (two fetcher goroutines, the driver in
  `FetchLogs`, the mutex-protected `logCollector`) become an explicit transition
  system whose atomic steps are exactly the mutex-protected critical sections of
  the Go code, quantified over all interleavings (lists of scheduled actions);
* the polling loop `LogFetcher.streamLogs` becomes a function of an environment
  script (the per-cycle context snapshot, page responses and clock readings);
* external collaborators (S3 `GetObject`, `io.ReadAll`, `json.Unmarshal`,
  `net/url.Parse`) are modelled as oracles/parameters at their observed
  interface;
* the call `sort.Slice(collector.events, …)` from the drain step of
  `FetchLogs` is embedded by translating the actual Go standard library
  implementation (pattern-defeating quicksort, `sort/zsortfunc.go`), so that
  its concrete—and notably unstable—behaviour is available for evaluation.
  Loops are given explicit fuel; every call site passes fuel that is amply
  sufficient, and all permutation lemmas below hold for every fuel value.

Timestamps (`int64` milliseconds) are modelled as `Int`; the values occurring
in the engine never overflow 64 bits, so wrap-around is immaterial here.
-/

/-- One emitted log line, Go struct `logEvent` (logs.go).  The Go field
`prefix` (which source produced the event: `"instance"` or `"application"`)
is modelled under the name `sourceLabel`. -/
structure logEvent where
  message : String
  sourceLabel : String
  stream : String
  timestamp : Int
  eventId : String
  noColor : Bool
  deriving DecidableEq, Repr

/-- The fields of `github.WorkflowJob` that logs.go reads: `*workflowJob.ID`,
`*workflowJob.RunID`, `*workflowJob.Name`, and `workflowJob.CreatedAt`
(as UnixMilli). -/
structure WorkflowJob where
  id : Int
  runId : Int
  name : String
  createdAtMillis : Int
  deriving DecidableEq, Repr

/-- State of the Go `logCollector`: `events` is the backfill buffer, `eventCh`
models the live channel as the queue of submitted-but-not-yet-delivered events,
`seenEvents` the deduplication set (a Go `map[string]struct{}` keyed by
`eventId`). -/
structure logCollector where
  events : List logEvent
  eventCh : List logEvent
  pastEventsCollected : Bool
  seenEvents : List String
  deriving DecidableEq, Repr

/-- `newLogCollector` (logs.go). -/
def newLogCollector : logCollector :=
  { events := [], eventCh := [], pastEventsCollected := false, seenEvents := [] }

/-- `logCollector.add` (logs.go): under the collector mutex, drop the event if
its `eventId` was already seen; otherwise record it and either append it to the
backfill buffer (before the phase flip) or push it onto the live channel. -/
def logCollector.add (c : logCollector) (event : logEvent) : logCollector :=
  if c.seenEvents.contains event.eventId then c
  else
    let c2 := { c with seenEvents := event.eventId :: c.seenEvents }
    if !c2.pastEventsCollected then { c2 with events := c2.events ++ [event] }
    else { c2 with eventCh := c2.eventCh ++ [event] }

section GoSort

variable {α : Type}

/-- `data.Swap(i, j)` of Go `sort.Slice`'s `lessSwap` on a list.  The Go code
only ever swaps in-bounds indices; out-of-bounds indices leave the list
unchanged. -/
def swapL (d : α) (l : List α) (i j : Nat) : List α :=
  if i < l.length ∧ j < l.length then (l.set i (l.getD j d)).set j (l.getD i d) else l

/-- Inner loop of `insertionSort_func` (Go sort/zsortfunc.go):
`for j := i; j > a && data.Less(j, j-1); j--  { data.Swap(j, j-1) }`. -/
def insertionInner (less : α → α → Bool) (d : α) (lo : Nat) : List α → Nat → List α
  | l, 0 => l
  | l, j+1 =>
    if lo < j + 1 && less (l.getD (j+1) d) (l.getD j d) then
      insertionInner less d lo (swapL d l (j+1) j) j
    else l

/-- Outer loop of `insertionSort_func`, with fuel (one unit per iteration of
`for i := a+1; i < b; i++`). -/
def insertionOuter (less : α → α → Bool) (d : α) (lo b : Nat) : List α → Nat → Nat → List α
  | l, _i, 0 => l
  | l, i, fuel+1 =>
    if i < b then insertionOuter less d lo b (insertionInner less d lo l i) (i+1) fuel else l

/-- `insertionSort_func(data, a, b)` (Go sort/zsortfunc.go). -/
def insertionSortGo (less : α → α → Bool) (d : α) (l : List α) (lo b : Nat) : List α :=
  insertionOuter less d lo b l (lo+1) b

/-- `siftDown_func(data, root, hi, first)` (Go sort/zsortfunc.go), with fuel. -/
def siftDownGo (less : α → α → Bool) (d : α) (hi first : Nat) : List α → Nat → Nat → List α
  | l, _root, 0 => l
  | l, root, fuel+1 =>
    let child0 := 2*root + 1
    if child0 ≥ hi then l
    else
      let child :=
        if child0 + 1 < hi && less (l.getD (first+child0) d) (l.getD (first+child0+1) d)
        then child0 + 1 else child0
      if !less (l.getD (first+root) d) (l.getD (first+child) d) then l
      else siftDownGo less d hi first (swapL d l (first+root) (first+child)) child fuel

/-- Heap-construction loop of `heapSort_func`: runs the body for
`i = n-1, …, 0` where the argument is the number `n` of remaining iterations. -/
def heapBuild (less : α → α → Bool) (d : α) (hi first : Nat) : List α → Nat → List α
  | l, 0 => l
  | l, n+1 => heapBuild less d hi first (siftDownGo less d hi first l n (hi+1)) n

/-- Pop loop of `heapSort_func`: for `i = n-1, …, 0`:
`data.Swap(first, first+i); siftDown_func(data, 0, i, first)`. -/
def heapPop (less : α → α → Bool) (d : α) (first : Nat) : List α → Nat → List α
  | l, 0 => l
  | l, n+1 => heapPop less d first (siftDownGo less d n first (swapL d l first (first+n)) 0 (n+1)) n

/-- `heapSort_func(data, a, b)` (Go sort/zsortfunc.go). -/
def heapSortGo (less : α → α → Bool) (d : α) (l : List α) (lo b : Nat) : List α :=
  heapPop less d lo (heapBuild less d (b - lo) lo l ((b - lo - 1)/2 + 1)) (b - lo)

/-- Loop of `reverseRange_func`. -/
def revLoop (d : α) : List α → Nat → Nat → Nat → List α
  | l, _i, _j, 0 => l
  | l, i, j, fuel+1 => if i < j then revLoop d (swapL d l i j) (i+1) (j-1) fuel else l

/-- `reverseRange_func(data, a, b)` (Go sort/zsortfunc.go). -/
def reverseRangeGo (d : α) (l : List α) (lo b : Nat) : List α :=
  revLoop d l lo (b-1) b

/-- Index-advancing loop of Go `partialInsertionSort_func`:
`for i < b && !data.Less(i, i-1) { i++ }`. -/
def pisAdvance (less : α → α → Bool) (d : α) (b : Nat) (l : List α) : Nat → Nat → Nat
  | i, 0 => i
  | i, fuel+1 =>
    if i < b && !less (l.getD i d) (l.getD (i-1) d) then pisAdvance less d b l (i+1) fuel else i

/-- Left-shift loop of Go `partialInsertionSort_func`:
`for j := i-1; j >= 1; j-- { if !data.Less(j, j-1) break; data.Swap(j, j-1) }`,
the argument being the current `j`. -/
def pisShiftLeft (less : α → α → Bool) (d : α) : List α → Nat → List α
  | l, 0 => l
  | l, j+1 =>
    if less (l.getD (j+1) d) (l.getD j d) then pisShiftLeft less d (swapL d l (j+1) j) j else l

/-- Right-shift loop of Go `partialInsertionSort_func`:
`for j := i+1; j < b; j++ { if !data.Less(j, j-1) break; data.Swap(j, j-1) }`. -/
def pisShiftRight (less : α → α → Bool) (d : α) (b : Nat) : List α → Nat → Nat → List α
  | l, _j, 0 => l
  | l, j, fuel+1 =>
    if j < b then
      if less (l.getD j d) (l.getD (j-1) d) then
        pisShiftRight less d b (swapL d l j (j-1)) (j+1) fuel
      else l
    else l

/-- Go `partialInsertionSort_func(data, a, b)` (sort/zsortfunc.go): at most
`maxSteps = 5` adjacent out-of-order pairs are repaired (`shortestShifting =
50`); returns the array and whether it ended fully sorted.  The third argument
is the running index `i`, the fourth the remaining steps. -/
def tryQuickIns (less : α → α → Bool) (d : α) (lo b : Nat) : List α → Nat → Nat → List α × Bool
  | l, _i, 0 => (l, false)
  | l, i, steps+1 =>
    let i2 := pisAdvance less d b l i (b + 1)
    if i2 == b then (l, true)
    else if b - lo < 50 then (l, false)
    else
      let l2 := swapL d l i2 (i2-1)
      let l3 := if i2 - lo ≥ 2 then pisShiftLeft less d l2 (i2-1) else l2
      let l4 := if b - i2 ≥ 2 then pisShiftRight less d b l3 (i2+1) (b+1) else l3
      tryQuickIns less d lo b l4 i2 steps

/-- The xorshift PRNG of Go's sort package (`xorshift.Next`), on `uint64`. -/
def xorshiftNext (r : Nat) : Nat :=
  let r1 := (r ^^^ ((r <<< 13) % (2^64)))
  let r2 := (r1 ^^^ (r1 >>> 7))
  (r2 ^^^ ((r2 <<< 17) % (2^64)))

/-- Go `bits.Len(uint(n))`: number of bits needed to represent `n`. -/
def bitsLen (n : Nat) : Nat := if n = 0 then 0 else n.log2 + 1

/-- Go `breakPatterns_func(data, a, b)` (sort/zsortfunc.go): swap three
pseudo-randomly chosen elements around the midpoint. -/
def breakPatternsGo (d : α) (l : List α) (lo b : Nat) : List α :=
  let len := b - lo
  if len ≥ 8 then
    let modulus := 1 <<< (bitsLen len)
    let idx := lo + (len/4)*2 - 1
    let r1 := xorshiftNext len
    let o1 := r1 &&& (modulus - 1)
    let o1 := if o1 ≥ len then o1 - len else o1
    let l1 := swapL d l (idx - 1) (lo + o1)
    let r2 := xorshiftNext r1
    let o2 := r2 &&& (modulus - 1)
    let o2 := if o2 ≥ len then o2 - len else o2
    let l2 := swapL d l1 idx (lo + o2)
    let r3 := xorshiftNext r2
    let o3 := r3 &&& (modulus - 1)
    let o3 := if o3 ≥ len then o3 - len else o3
    swapL d l2 (idx + 1) (lo + o3)
  else l

/-- The three pivot hints of Go's pdqsort. -/
inductive SortedHint
  | increasing
  | decreasing
  | unknown
  deriving DecidableEq, Repr

/-- Go `order2_func(data, a, b, &swaps)`. -/
def order2 (less : α → α → Bool) (d : α) (l : List α) (a b swaps : Nat) : Nat × Nat × Nat :=
  if less (l.getD b d) (l.getD a d) then (b, a, swaps+1) else (a, b, swaps)

/-- Go `median_func(data, a, b, c, &swaps)`: returns the index of the median
element and the updated swap count. -/
def medianGo (less : α → α → Bool) (d : α) (l : List α) (a b c swaps : Nat) : Nat × Nat :=
  let r1 := order2 less d l a b swaps
  let r2 := order2 less d l r1.2.1 c r1.2.2
  let r3 := order2 less d l r1.1 r2.1 r2.2.2
  (r3.2.1, r3.2.2)

/-- Go `medianAdjacent_func(data, a, &swaps)` = `median(a-1, a, a+1)`. -/
def medianAdjacentGo (less : α → α → Bool) (d : α) (l : List α) (a swaps : Nat) : Nat × Nat :=
  medianGo less d l (a-1) a (a+1) swaps

/-- Go `choosePivot_func(data, a, b)` (sort/zsortfunc.go): median (or ninther
for length ≥ 50) pivot selection together with a sortedness hint derived from
the swap count (`0` ⇒ increasing, `12` ⇒ decreasing). -/
def choosePivotGo (less : α → α → Bool) (d : α) (l : List α) (lo b : Nat) : Nat × SortedHint :=
  let len := b - lo
  let i0 := lo + (len/4)*1
  let j0 := lo + (len/4)*2
  let k0 := lo + (len/4)*3
  let r :=
    if len ≥ 8 then
      if len ≥ 50 then
        let ri := medianAdjacentGo less d l i0 0
        let rj := medianAdjacentGo less d l j0 ri.2
        let rk := medianAdjacentGo less d l k0 rj.2
        medianGo less d l ri.1 rj.1 rk.1 rk.2
      else medianGo less d l i0 j0 k0 0
    else (j0, 0)
  if r.2 = 0 then (r.1, SortedHint.increasing)
  else if r.2 = 12 then (r.1, SortedHint.decreasing)
  else (r.1, SortedHint.unknown)

/-- Skim loop `for i <= j && data.Less(i, a) { i++ }` of Go `partition_func`. -/
def partSkipLow (less : α → α → Bool) (d : α) (l : List α) (lo j : Nat) : Nat → Nat → Nat
  | i, 0 => i
  | i, fuel+1 =>
    if i ≤ j && less (l.getD i d) (l.getD lo d) then partSkipLow less d l lo j (i+1) fuel else i

/-- Skim loop `for i <= j && !data.Less(j, a) { j-- }` of Go `partition_func`. -/
def partSkipHigh (less : α → α → Bool) (d : α) (l : List α) (lo i : Nat) : Nat → Nat → Nat
  | j, 0 => j
  | j, fuel+1 =>
    if i ≤ j && !less (l.getD j d) (l.getD lo d) then partSkipHigh less d l lo i (j-1) fuel else j

/-- Main loop of Go `partition_func`. -/
def partitionLoop (less : α → α → Bool) (d : α) (lo b : Nat) : List α → Nat → Nat → Nat → List α × Nat
  | l, _i, j, 0 => (l, j)
  | l, i, j, fuel+1 =>
    let i2 := partSkipLow less d l lo j i (b+2)
    let j2 := partSkipHigh less d l lo i2 j (b+2)
    if i2 > j2 then (l, j2)
    else partitionLoop less d lo b (swapL d l i2 j2) (i2+1) (j2-1) fuel

/-- Go `partition_func(data, a, b, pivot)` (sort/zsortfunc.go): Hoare
partition; returns the new pivot position and whether the range was already
partitioned. -/
def partitionGo (less : α → α → Bool) (d : α) (l : List α) (lo b pivot : Nat) :
    List α × Nat × Bool :=
  let l1 := swapL d l lo pivot
  let i1 := partSkipLow less d l1 lo (b-1) (lo+1) (b+2)
  let j1 := partSkipHigh less d l1 lo i1 (b-1) (b+2)
  if i1 > j1 then (swapL d l1 j1 lo, j1, true)
  else
    let l2 := swapL d l1 i1 j1
    let r := partitionLoop less d lo b l2 (i1+1) (j1-1) (b+2)
    (swapL d r.1 r.2 lo, r.2, false)

/-- Skim loop `for i <= j && !data.Less(a, i) { i++ }` of Go
`partitionEqual_func`. -/
def peSkipLow (less : α → α → Bool) (d : α) (l : List α) (lo j : Nat) : Nat → Nat → Nat
  | i, 0 => i
  | i, fuel+1 =>
    if i ≤ j && !less (l.getD lo d) (l.getD i d) then peSkipLow less d l lo j (i+1) fuel else i

/-- Skim loop `for i <= j && data.Less(a, j) { j-- }` of Go
`partitionEqual_func`. -/
def peSkipHigh (less : α → α → Bool) (d : α) (l : List α) (lo i : Nat) : Nat → Nat → Nat
  | j, 0 => j
  | j, fuel+1 =>
    if i ≤ j && less (l.getD lo d) (l.getD j d) then peSkipHigh less d l lo i (j-1) fuel else j

/-- Main loop of Go `partitionEqual_func`; returns the final `i`. -/
def peLoop (less : α → α → Bool) (d : α) (lo : Nat) : List α → Nat → Nat → Nat → List α × Nat
  | l, i, _j, 0 => (l, i)
  | l, i, j, fuel+1 =>
    let i2 := peSkipLow less d l lo j i (j+2)
    let j2 := peSkipHigh less d l lo i2 j (j+2)
    if i2 > j2 then (l, i2)
    else peLoop less d lo (swapL d l i2 j2) (i2+1) (j2-1) fuel

/-- Go `partitionEqual_func(data, a, b, pivot)` (sort/zsortfunc.go). -/
def partitionEqualGo (less : α → α → Bool) (d : α) (l : List α) (lo b pivot : Nat) :
    List α × Nat :=
  peLoop less d lo (swapL d l lo pivot) (lo+1) (b-1) (b+2)

/-- Go `pdqsort_func(data, a, b, limit)` (sort/zsortfunc.go), loop state
(`a`, `b`, `limit`, `wasBalanced`, `wasPartitioned`) made explicit and the
outer `for` expressed as fuelled recursion.  `maxInsertion = 12`. -/
def pdqsortGo (less : α → α → Bool) (d : α) :
    List α → Nat → Nat → Nat → Bool → Bool → Nat → List α
  | l, _lo, _b, _limit, _wasBalanced, _wasPartitioned, 0 => l
  | l, lo, b, limit, wasBalanced, wasPartitioned, fuel+1 =>
    let len := b - lo
    if len ≤ 12 then insertionSortGo less d l lo b
    else if limit = 0 then heapSortGo less d l lo b
    else
      let lA := if !wasBalanced then breakPatternsGo d l lo b else l
      let limitA := if !wasBalanced then limit - 1 else limit
      let pv := choosePivotGo less d lA lo b
      let lB := if pv.2 = SortedHint.decreasing then reverseRangeGo d lA lo b else lA
      let pivot := if pv.2 = SortedHint.decreasing then (b-1) - (pv.1 - lo) else pv.1
      let hint := if pv.2 = SortedHint.decreasing then SortedHint.increasing else pv.2
      let tq :=
        if wasBalanced && wasPartitioned && (hint == SortedHint.increasing) then
          tryQuickIns less d lo b lB (lo+1) 5
        else (lB, false)
      if tq.2 then tq.1
      else
        let lC := tq.1
        if lo > 0 && !less (lC.getD (lo-1) d) (lC.getD pivot d) then
          let pe := partitionEqualGo less d lC lo b pivot
          pdqsortGo less d pe.1 pe.2 b limitA wasBalanced wasPartitioned fuel
        else
          let pr := partitionGo less d lC lo b pivot
          let mid := pr.2.1
          let alreadyPartitioned := pr.2.2
          let leftLen := mid - lo
          let rightLen := b - mid
          let wasBalanced2 := decide (min leftLen rightLen ≥ len / 8)
          if leftLen < rightLen then
            pdqsortGo less d (pdqsortGo less d pr.1 lo mid limitA wasBalanced2 alreadyPartitioned fuel)
              (mid+1) b limitA wasBalanced2 alreadyPartitioned fuel
          else
            pdqsortGo less d (pdqsortGo less d pr.1 (mid+1) b limitA wasBalanced2 alreadyPartitioned fuel)
              lo mid limitA wasBalanced2 alreadyPartitioned fuel

/-- Go `sort.Slice(x, less)`: `limit := bits.Len(uint(n)); pdqsort(0, n, limit)`.
The fuel `(n+2)*(n+2)` strictly dominates the number of loop iterations and
recursive calls pdqsort can make on an input of length `n`. -/
def goSortSlice (less : α → α → Bool) (d : α) (l : List α) : List α :=
  let n := l.length
  pdqsortGo less d l 0 n (bitsLen n) true true ((n+2)*(n+2))

end GoSort

/-- The comparison closure of the drain step in `LogFetcher.FetchLogs`:
`func(i, j int) bool { return events[i].timestamp < events[j].timestamp }`. -/
def lessFunc (e1 e2 : logEvent) : Bool := decide (e1.timestamp < e2.timestamp)

/-- Default element used for (never-taken) out-of-bounds reads in the sort
embedding. -/
def defaultLogEvent : logEvent :=
  { message := "", sourceLabel := "", stream := "", timestamp := 0, eventId := "", noColor := false }

/-- `sort.Slice(collector.events, less-by-timestamp)` as called in
`LogFetcher.FetchLogs` (logs.go, drain step). -/
def sortEventsGo (l : List logEvent) : List logEvent :=
  goSortSlice lessFunc defaultLogEvent l

/-- The documented postcondition of Go `sort.Slice` with the timestamp
comparison: the result is a permutation of the input, ordered with respect to
`less` (no later element is `less` than an earlier one).  Go's documentation
explicitly does NOT guarantee stability: "The sort is not guaranteed to be
stable: equal elements may be reversed from their original order." -/
def sortSliceContract (l out : List logEvent) : Prop :=
  l.Perm out ∧ out.Pairwise (fun e1 e2 => lessFunc e2 e1 = false)

/-- Tagged printed line: produced either by the backfill drain in
`FetchLogs` (printing the sorted buffer) or by the live loop reading the
event channel. -/
inductive OutputItem
  | backfill (e : logEvent)
  | live (e : logEvent)
  deriving DecidableEq, Repr

/-- Global state of one log session: the shared collector, the two
fetchers' local first-pass flags (each guards its single `wg.Done`; the
WaitGroup counter starts at 2 and equals `2 - signals`), and the lines
printed so far, in order. -/
structure SessionState where
  collector : logCollector
  instSignaled : Bool
  appSignaled : Bool
  output : List OutputItem
  deriving DecidableEq, Repr

/-- Atomic steps of the session, one per mutex-protected critical section /
synchronization point of logs.go:
`submit` = a fetcher calling `collector.add` (under `mu`);
`signalDone` = a fetcher's once-guarded `collector.wg.Done()`;
`drain` = the driver returning from `wg.Wait()`, then (under `mu`) sorting
and printing the buffer and setting `pastEventsCollected`;
`deliverLive` = the driver receiving one event from `eventCh` and printing
it. -/
inductive SessionAction
  | submit (e : logEvent)
  | signalDone (isInstance : Bool)
  | drain
  | deliverLive
  deriving DecidableEq, Repr

/-- Session start: fresh collector (`newLogCollector` in `FetchLogs`), no
signals, nothing printed. -/
def initialSession : SessionState :=
  { collector := newLogCollector, instSignaled := false, appSignaled := false, output := [] }

/-- One step of the session transition system.  `none` means the action is
not enabled in this state (that thread cannot take that step): a second
`wg.Done` from the same fetcher cannot happen (local once-guard), the drain
can only run after `wg.Wait` returns (both signals) and only once, and the
live loop only runs after the drain and only when the channel is
non-empty. -/
def sessionStep (s : SessionState) : SessionAction → Option SessionState
  | SessionAction.submit e => some { s with collector := s.collector.add e }
  | SessionAction.signalDone isInstance =>
      if isInstance then
        if s.instSignaled then none else some { s with instSignaled := true }
      else
        if s.appSignaled then none else some { s with appSignaled := true }
  | SessionAction.drain =>
      if s.instSignaled && s.appSignaled && !s.collector.pastEventsCollected then
        some { s with
          output := s.output ++ (sortEventsGo s.collector.events).map OutputItem.backfill,
          collector := { s.collector with pastEventsCollected := true } }
      else none
  | SessionAction.deliverLive =>
      if s.collector.pastEventsCollected then
        match s.collector.eventCh with
        | [] => none
        | e :: rest =>
          some { s with
            output := s.output ++ [OutputItem.live e],
            collector := { s.collector with eventCh := rest } }
      else none

/-- Run a schedule (interleaving) from a state; disabled actions are skipped
(the scheduler cannot run a blocked thread). -/
def runFrom (s : SessionState) (actions : List SessionAction) : SessionState :=
  actions.foldl (fun s a => (sessionStep s a).getD s) s

/-- Run a schedule from the session start. -/
def runSession (actions : List SessionAction) : SessionState :=
  runFrom initialSession actions

def isLiveItem : OutputItem → Bool
  | OutputItem.live _ => true
  | OutputItem.backfill _ => false

/-- Once a live line has been printed, only live lines follow: no backfill
line is ever printed after a live one. -/
def phaseSeparated : List OutputItem → Bool
  | [] => true
  | OutputItem.backfill _ :: rest => phaseSeparated rest
  | OutputItem.live _ :: rest => rest.all isLiveItem

/-- Operations on the collector alone (for properties of `add` in isolation):
a submission from either fetcher, or the phase flip performed by the
drain. -/
inductive CollectorOp
  | submit (e : logEvent)
  | flip
  deriving DecidableEq, Repr

def applyCollectorOp (c : logCollector) : CollectorOp → logCollector
  | CollectorOp.submit e => c.add e
  | CollectorOp.flip => { c with pastEventsCollected := true }

def runCollector (ops : List CollectorOp) : logCollector :=
  ops.foldl applyCollectorOp newLogCollector

/-- Everything the collector has accepted for emission: the backfill buffer
(printed at the flip) plus the live queue (printed by the live loop). -/
def collectedEvents (c : logCollector) : List logEvent := c.events ++ c.eventCh

/-- The fields of `cloudwatchlogs.FilterLogEventsInput` that logs.go writes.
The Go field `LogStreamNamePrefix` is modelled under the name
`logStreamNameStart`. -/
structure FilterLogEventsInput where
  logGroupIdentifier : Option String
  filterPattern : Option String
  startTime : Option Int
  logStreamNameStart : Option String
  deriving DecidableEq, Repr

/-- `&cloudwatchlogs.FilterLogEventsInput{}` — the zero value `streamLogs`
starts from. -/
def emptyFilterInput : FilterLogEventsInput :=
  { logGroupIdentifier := none, filterPattern := none, startTime := none,
    logStreamNameStart := none }

/-- The mutable fields of Go's `LogFetcher` that the filter constructors and
the context-refresh functions read/write. -/
structure LogFetcher where
  jobID : String
  runID : String
  useRunFilter : Bool
  instanceID : String
  workflowJob : Option WorkflowJob
  deriving DecidableEq, Repr

/-- The `updateInput` closure of `LogFetcher.streamInstanceLogs`: set the log
group and an empty filter pattern; fail (skip this cycle) if the workflow job
is unknown; seed `StartTime` with `CreatedAt − 10000` ms if unset (note: this
write persists even when the subsequent instance-ID check fails); fail if the
instance ID is unknown; otherwise scope to the instance's streams.  The
`Bool` is `true` iff the closure returned nil. -/
def updateInputInstance (arn : String) (f : LogFetcher) (input : FilterLogEventsInput) :
    FilterLogEventsInput × Bool :=
  let input1 := { input with logGroupIdentifier := some arn, filterPattern := some "" }
  match f.workflowJob with
  | none => (input1, false)
  | some wj =>
    let input2 :=
      if input1.startTime = none then { input1 with startTime := some (wj.createdAtMillis - 10000) }
      else input1
    if f.instanceID = "" then (input2, false)
    else ({ input2 with logStreamNameStart := some (f.instanceID ++ "/") }, true)

/-- The `updateInput` closure for the application source in
`LogFetcher.FetchLogs`: requires the workflow job; filters on `$.run_id`
(run mode) or `$.job_id` (job mode); seeds `StartTime` with `CreatedAt −
10000` ms if unset; if the instance ID is known, ORs in a `$.message`
substring clause; clauses are joined with `" || "` inside braces. -/
def updateInputApplication (arn : String) (f : LogFetcher) (input : FilterLogEventsInput) :
    FilterLogEventsInput × Bool :=
  let input1 := { input with logGroupIdentifier := some arn }
  match f.workflowJob with
  | none => (input1, false)
  | some wj =>
    let pats0 :=
      [if f.useRunFilter then "( $.run_id = \"" ++ f.runID ++ "\" )"
       else "( $.job_id = \"" ++ toString wj.id ++ "\" )"]
    let input2 :=
      if input1.startTime = none then { input1 with startTime := some (wj.createdAtMillis - 10000) }
      else input1
    let pats :=
      if f.instanceID ≠ "" then pats0 ++ ["( $.message = \"*" ++ f.instanceID ++ "*\" )"]
      else pats0
    ({ input2 with
        filterPattern := some ("\x7b " ++ String.intercalate " || " pats ++ " \x7d") }, true)

/-- One CloudWatch `FilteredLogEvent` as consumed by `streamLogs`
(`*event.Message`, `*event.LogStreamName`, `*event.Timestamp`,
`*event.EventId`). -/
structure RawEvent where
  message : String
  stream : String
  timestamp : Int
  eventId : String
  deriving DecidableEq, Repr

/-- Outcome of one `paginator.NextPage` call: a page of events, or a
transport/pagination error. -/
inductive PageResult
  | ok (events : List RawEvent)
  | fail
  deriving DecidableEq, Repr

/-- Environment of one cycle of a fetcher's loop: the `LogFetcher` snapshot
the closure reads (kept fresh by the background refresh goroutine), the
source's page responses for this cycle, and the wall clock
(`time.Now().UnixMilli()`) at the cursor-update point. -/
structure PollCycle where
  snap : LogFetcher
  pages : List PageResult
  nowMillis : Int
  deriving DecidableEq, Repr

/-- Per-event body of the page loop: build the `logEvent` exactly as
`streamLogs` does and submit it to the collector, tracking the maximum
observed timestamp (`if *event.Timestamp > lastTimestamp`). -/
def addRaw (label : String) (noColor : Bool) (p : logCollector × Int) (re : RawEvent) :
    logCollector × Int :=
  (p.1.add { message := re.message, sourceLabel := label, stream := re.stream,
             timestamp := re.timestamp, eventId := re.eventId, noColor := noColor },
   if re.timestamp > p.2 then re.timestamp else p.2)

/-- The pagination loop of `streamLogs`: process pages in order; a failing
`NextPage` aborts immediately (third component `false`). -/
def runPages (label : String) (noColor : Bool) :
    logCollector → Int → List PageResult → logCollector × Int × Bool
  | c, lastTs, [] => (c, lastTs, true)
  | c, _lastTs, PageResult.fail :: _ => (c, _lastTs, false)
  | c, lastTs, PageResult.ok evs :: rest =>
      let p := evs.foldl (addRaw label noColor) (c, lastTs)
      runPages label noColor p.1 p.2 rest

/-- Local state of one fetcher's `streamLogs` loop: the shared collector, the
`FilterLogEventsInput` owned by the loop (its `startTime` is the moving
cursor), the local `pastEventsCollected` flag, and instrumentation counters:
`doneSignals` = number of `wg.Done` calls made, `polls` = number of cycles in
which the source was actually paginated (filter construction succeeded). -/
structure StreamState where
  collector : logCollector
  input : FilterLogEventsInput
  firstPassDone : Bool
  doneSignals : Nat
  polls : Nat
  deriving DecidableEq, Repr

def initStreamState (c : logCollector) : StreamState :=
  { collector := c, input := emptyFilterInput, firstPassDone := false,
    doneSignals := 0, polls := 0 }

/-- `if !pastEventsCollected { pastEventsCollected = true; collector.wg.Done() }`
at the end of each cycle of `streamLogs`. -/
def signalFirst (st : StreamState) : StreamState :=
  if st.firstPassDone then st
  else { st with firstPassDone := true, doneSignals := st.doneSignals + 1 }

/-- `LogFetcher.streamLogs` (logs.go), one source's polling loop, as a
function of the environment script (one `PollCycle` per loop iteration; the
script ending models the end of the observation window in watch mode).
Per cycle: run `updateInput`; on failure just log and fall through to the
first-pass signal; on success paginate — a page error returns
`some "error fetching logs"` immediately (before any first-pass signal);
otherwise advance the cursor to `lastTimestamp + 1`, or to `now − 1000` if
`lastTimestamp` stayed `0`, signal first-pass-complete (once), and either
stop (one-shot) or continue with the next cycle (watch). -/
def streamLogs (updIn : LogFetcher → FilterLogEventsInput → FilterLogEventsInput × Bool)
    (watch : Bool) (noColor : Bool) (label : String) :
    StreamState → List PollCycle → StreamState × Option String
  | st, [] => (st, none)
  | st, cy :: rest =>
    let u := updIn cy.snap st.input
    if u.2 then
      let pr := runPages label noColor st.collector 0 cy.pages
      if pr.2.2 then
        let newStart := if pr.2.1 > 0 then pr.2.1 + 1 else cy.nowMillis - 1000
        let st2 := signalFirst
          { st with
            collector := pr.1,
            input := { u.1 with startTime := some newStart },
            polls := st.polls + 1 }
        if watch then streamLogs updIn watch noColor label st2 rest else (st2, none)
      else
        ({ st with collector := pr.1, input := u.1, polls := st.polls + 1 },
         some "error fetching logs")
    else
      let st2 := signalFirst { st with input := u.1 }
      if watch then streamLogs updIn watch noColor label st2 rest else (st2, none)

/-- The events a cycle's pages deliver before any page error. -/
def pagesEvents : List PageResult → List RawEvent
  | [] => []
  | PageResult.fail :: _ => []
  | PageResult.ok evs :: rest => evs ++ pagesEvents rest

/-- Outcome of one S3 `GetObject` + body read, as observed by the refresh
functions: `err` is any `GetObject` failure (including not-found);
`okBody none` is a successful `GetObject` whose `io.ReadAll` fails;
`okBody (some s)` is a successful read of body `s`. -/
inductive S3GetResult
  | err
  | okBody (body : Option String)
  deriving DecidableEq, Repr

/-- `LogFetcher.refreshInstanceID` (logs.go): a `GetObject` error is logged
and swallowed (`return nil`) but unconditionally resets `instanceID` to `""`;
a body-read error is returned; a successful read stores the body as the
instance ID. -/
def refreshInstanceID (f : LogFetcher) (r : S3GetResult) : Except String LogFetcher :=
  match r with
  | S3GetResult.err => Except.ok { f with instanceID := "" }
  | S3GetResult.okBody none => Except.error "read error"
  | S3GetResult.okBody (some s) => Except.ok { f with instanceID := s }

/-- `LogFetcher.refreshWorkflowJobDetails` (logs.go): a `GetObject` error is
logged and swallowed (`return nil`), leaving `workflowJob` untouched; a
body-read error or a `json.Unmarshal` error is returned.  The unmarshaller
(`encoding/json` + go-github types) is an oracle parameter. -/
def refreshWorkflowJobDetails (f : LogFetcher) (r : S3GetResult)
    (unmarshal : String → Option WorkflowJob) : Except String LogFetcher :=
  match r with
  | S3GetResult.err => Except.ok f
  | S3GetResult.okBody none => Except.error "read error"
  | S3GetResult.okBody (some s) =>
    match unmarshal s with
    | none => Except.error "unmarshal error"
    | some wj => Except.ok { f with workflowJob := some wj }

/-- `LogFetcher.Init` (logs.go) up to the spawn of the background refresh
goroutine: store job ID and filter mode, run one synchronous
`refreshWorkflowJobDetails` and one `refreshInstanceID`, propagating any
error from either, then derive `runID` from the workflow job when run
filtering is enabled. -/
def initLogFetcher (f0 : LogFetcher) (jobID : String) (useRunFilter : Bool)
    (rWf : S3GetResult) (unmarshal : String → Option WorkflowJob) (rInst : S3GetResult) :
    Except String LogFetcher :=
  let f1 := { f0 with jobID := jobID, useRunFilter := useRunFilter }
  match refreshWorkflowJobDetails f1 rWf unmarshal with
  | Except.error e => Except.error e
  | Except.ok f2 =>
    match refreshInstanceID f2 rInst with
    | Except.error e => Except.error e
    | Except.ok f3 =>
      match f3.workflowJob with
      | some wj =>
        if f3.useRunFilter then Except.ok { f3 with runID := toString wj.runId }
        else Except.ok f3
      | none => Except.ok f3

/-- Split a character list at every occurrence of `sep`, keeping empty
fields — the semantics of Go `strings.Split` with a one-character separator
(`strings.Split("", sep) = [""]`). -/
def splitOnChar (sep : Char) : List Char → List (List Char)
  | [] => [[]]
  | c :: rest =>
    let r := splitOnChar sep rest
    if c = sep then [] :: r
    else
      match r with
      | [] => [[c]]
      | h :: t => (c :: h) :: t

/-- Go `strings.Split(s, "/")` (logs.go splits the URL path on `"/"`). -/
def goSplitSlash (s : String) : List String :=
  (splitOnChar (Char.ofNat 47) s.data).map (fun l => String.mk l)

/-- The outcome of Go `net/url.Parse` as far as `extractJobID` consumes it:
the scheme and the path of the parsed URL, or `none` for a parse error. -/
structure GoURL where
  scheme : String
  path : String
  deriving DecidableEq, Repr

/-- `extractJobID` (logs.go): if the input parses as a URL with scheme
`https`, split its path on `"/"` and return the last segment when there is
more than one; in every other case return the input unchanged.  The `parsed`
argument is the oracle result of `url.Parse input`. -/
def extractJobID (parsed : Option GoURL) (input : String) : String :=
  match parsed with
  | some u =>
    if u.scheme = "https" then
      let parts := goSplitSlash u.path
      if parts.length > 1 then parts.getD (parts.length - 1) "" else input
    else input
  | none => input

/-- 2 hours in milliseconds: the `--since` default (`time.Now().Add(-2 *
time.Hour)` and flag default `"2h"`). -/
def defaultSinceMillis : Int := 7200000

/-- The `startTime` computed by `NewLogsCmd`: `now − since`, with `since`
defaulting to two hours (`none` models the `since == ""` branch). -/
def logsCmdStartTimeMillis (nowMillis : Int) (sinceMillis : Option Int) : Int :=
  match sinceMillis with
  | none => nowMillis - defaultSinceMillis
  | some s => nowMillis - s

/-- Go `LogOptions` (logs.go). -/
structure LogOptions where
  watch : Bool
  watchIntervalMillis : Int
  startTime : Int
  format : String
  noColor : Bool
  deriving DecidableEq, Repr

/-- The `LogOptions` literal built in `NewLogsCmd`'s `RunE`. -/
def newLogsCmdOptions (nowMillis : Int) (sinceMillis : Option Int) (watch : Bool)
    (watchIntervalMillis : Int) (format : String) (noColor : Bool) : LogOptions :=
  { watch := watch, watchIntervalMillis := watchIntervalMillis,
    startTime := logsCmdStartTimeMillis nowMillis sinceMillis,
    format := format, noColor := noColor }

/-- Helper for concrete test events. -/
def mkEv (ts : Int) (id : String) : logEvent :=
  { message := "m", sourceLabel := "instance", stream := "s", timestamp := ts,
    eventId := id, noColor := true }

/-- Thirteen distinct events in submission order: strictly decreasing
timestamps except that the second and third events (`"b"` then `"c"`) share
timestamp 10.  Thirteen elements exceed pdqsort's insertion-sort cutoff
(12), so the drain's `sort.Slice` runs a real partition step on this
buffer. -/
def ce13 : List logEvent :=
  [mkEv 12 "a", mkEv 10 "b", mkEv 10 "c", mkEv 9 "d", mkEv 8 "e", mkEv 7 "f", mkEv 6 "g",
   mkEv 5 "h", mkEv 4 "i", mkEv 3 "j", mkEv 2 "k", mkEv 1 "l", mkEv 0 "m"]

/-- A schedule submitting `ce13` during backfill, then both first-pass
signals, then the drain. -/
def scheduleC2 : List SessionAction :=
  ce13.map SessionAction.submit ++
  [SessionAction.signalDone true, SessionAction.signalDone false, SessionAction.drain]

/-- A small schedule reaching the LIVE phase: one backfill submission, both
signals, the drain, one live submission, one live delivery. -/
def scheduleDemo : List SessionAction :=
  [SessionAction.submit (mkEv 5 "x1"), SessionAction.signalDone true,
   SessionAction.signalDone false, SessionAction.drain,
   SessionAction.submit (mkEv 9 "x2"), SessionAction.deliverLive]

/-- A resolved context snapshot: workflow job known, instance assigned. -/
def snapResolved : LogFetcher :=
  { jobID := "34368864490", runID := "12312372848", useRunFilter := false,
    instanceID := "i-0abc", workflowJob := some { id := 34368864490, runId := 12312372848,
                                                  name := "build", createdAtMillis := 500000 } }

/-- A context snapshot whose instance ID is never resolved. -/
def snapNoInstance : LogFetcher :=
  { jobID := "34368864490", runID := "", useRunFilter := false,
    instanceID := "", workflowJob := some { id := 34368864490, runId := 12312372848,
                                            name := "build", createdAtMillis := 500000 } }

/-- Watch-mode script for the pagination-error counterexample: the first
cycle's page fetch fails, and a second, perfectly healthy cycle follows. -/
def scriptPageError : List PollCycle :=
  [{ snap := snapResolved, pages := [PageResult.fail], nowMillis := 600000 },
   { snap := snapResolved, pages := [PageResult.ok [{ message := "ok", stream := "i-0abc/x",
                                                      timestamp := 600500, eventId := "E1" }]],
     nowMillis := 601000 }]

/-- Script for the cursor-regression counterexample: a poll observing an
event at t = 10000 (cursor → 10001), then 500 ms later an empty poll
(cursor → now − 1000 = 9500 < 10001). -/
def scriptCursorBack : List PollCycle :=
  [{ snap := snapResolved, pages := [PageResult.ok [{ message := "e", stream := "i-0abc/x",
                                                      timestamp := 10000, eventId := "T1" }]],
     nowMillis := 10050 },
   { snap := snapResolved, pages := [PageResult.ok []], nowMillis := 10500 }]

/-- Occurrences of a given `eventId` in a list of events. -/
def countId (id : String) (l : List logEvent) : Nat :=
  l.countP (fun e => e.eventId == id)

/-- The zero `LogFetcher` before `Init`. -/
def emptyFetcher : LogFetcher :=
  { jobID := "", runID := "", useRunFilter := false, instanceID := "", workflowJob := none }

/-- Inductive invariant of the session transition system: output is
phase-separated; before the flip nothing live has been printed and the live
channel is empty; after the flip both fetchers have signaled and every
buffered event has been printed. -/
def SessionInv (s : SessionState) : Prop :=
  phaseSeparated s.output = true
  ∧ (s.collector.pastEventsCollected = false →
      (s.output.all fun it => !isLiveItem it) = true ∧ s.collector.eventCh = [])
  ∧ (s.collector.pastEventsCollected = true →
      s.instSignaled = true ∧ s.appSignaled = true
      ∧ ∀ e ∈ s.collector.events, OutputItem.backfill e ∈ s.output)

/-! ### Permutation infrastructure for the `sort.Slice` embedding

Every mutation performed by the embedded pdqsort is a `swapL`; consequently
every phase of the algorithm returns a permutation of its input, for every
fuel value.  These lemmas feed the drain-completeness part of the phase
barrier theorem. -/

theorem consSet_perm {α : Type} (d a : α) :
    ∀ (t : List α) (k : Nat), k < t.length → (t.getD k d :: t.set k a).Perm (a :: t) := by
  intro t
  induction t with
  | nil => intro k hk; simp at hk
  | cons b t ih =>
    intro k hk
    cases k with
    | zero =>
      simp only [List.getD_cons_zero, List.set_cons_zero]
      exact List.Perm.swap a b t
    | succ k =>
      simp only [List.getD_cons_succ, List.set_cons_succ]
      have hk2 : k < t.length := by simpa using hk
      have h1 : (t.getD k d :: b :: t.set k a).Perm (b :: t.getD k d :: t.set k a) :=
        List.Perm.swap b (t.getD k d) (t.set k a)
      have h2 : (b :: t.getD k d :: t.set k a).Perm (b :: a :: t) :=
        (ih k hk2).cons b
      have h3 : (b :: a :: t).Perm (a :: b :: t) := List.Perm.swap a b t
      exact (h1.trans h2).trans h3

theorem setSet_perm {α : Type} (d : α) :
    ∀ (l : List α) (i j : Nat), i < l.length → j < l.length →
      ((l.set i (l.getD j d)).set j (l.getD i d)).Perm l := by
  intro l
  induction l with
  | nil => intro i j hi hj; simp at hi
  | cons a t ih =>
    intro i j hi hj
    cases i with
    | zero =>
      cases j with
      | zero => simp
      | succ m =>
        have hm : m < t.length := by simpa using hj
        simp only [List.getD_cons_zero, List.getD_cons_succ, List.set_cons_zero,
          List.set_cons_succ]
        exact consSet_perm d a t m hm
    | succ k =>
      cases j with
      | zero =>
        have hk : k < t.length := by simpa using hi
        simp only [List.getD_cons_zero, List.getD_cons_succ, List.set_cons_zero,
          List.set_cons_succ]
        exact consSet_perm d a t k hk
      | succ m =>
        have hk : k < t.length := by simpa using hi
        have hm : m < t.length := by simpa using hj
        simp only [List.getD_cons_succ, List.set_cons_succ]
        exact (ih k m hk hm).cons a

theorem swapL_perm {α : Type} (d : α) (l : List α) (i j : Nat) : (swapL d l i j).Perm l := by
  unfold swapL
  split
  · next h => exact setSet_perm d l i j h.1 h.2
  · exact List.Perm.refl l

theorem insertionInner_perm {α : Type} (less : α → α → Bool) (d : α) (lo : Nat) :
    ∀ (j : Nat) (l : List α), (insertionInner less d lo l j).Perm l := by
  intro j
  induction j with
  | zero => intro l; simp [insertionInner]
  | succ j ih =>
    intro l
    simp only [insertionInner]
    split
    · exact (ih _).trans (swapL_perm d l (j+1) j)
    · exact List.Perm.refl l

theorem insertionOuter_perm {α : Type} (less : α → α → Bool) (d : α) (lo b : Nat) :
    ∀ (fuel : Nat) (l : List α) (i : Nat), (insertionOuter less d lo b l i fuel).Perm l := by
  intro fuel
  induction fuel with
  | zero => intro l i; simp [insertionOuter]
  | succ fuel ih =>
    intro l i
    simp only [insertionOuter]
    split
    · exact (ih _ _).trans (insertionInner_perm less d lo i l)
    · exact List.Perm.refl l

theorem insertionSortGo_perm {α : Type} (less : α → α → Bool) (d : α) (l : List α) (lo b : Nat) :
    (insertionSortGo less d l lo b).Perm l :=
  insertionOuter_perm less d lo b b l (lo+1)

theorem siftDownGo_perm {α : Type} (less : α → α → Bool) (d : α) (hi first : Nat) :
    ∀ (fuel : Nat) (l : List α) (root : Nat), (siftDownGo less d hi first l root fuel).Perm l := by
  intro fuel
  induction fuel with
  | zero => intro l root; simp [siftDownGo]
  | succ fuel ih =>
    intro l root
    simp only [siftDownGo]
    repeat' split
    all_goals first
      | exact List.Perm.refl l
      | exact (ih _ _).trans (swapL_perm d l _ _)

theorem heapBuild_perm {α : Type} (less : α → α → Bool) (d : α) (hi first : Nat) :
    ∀ (n : Nat) (l : List α), (heapBuild less d hi first l n).Perm l := by
  intro n
  induction n with
  | zero => intro l; simp [heapBuild]
  | succ n ih =>
    intro l
    simp only [heapBuild]
    exact (ih _).trans (siftDownGo_perm less d hi first (hi+1) l n)

theorem heapPop_perm {α : Type} (less : α → α → Bool) (d : α) (first : Nat) :
    ∀ (n : Nat) (l : List α), (heapPop less d first l n).Perm l := by
  intro n
  induction n with
  | zero => intro l; simp [heapPop]
  | succ n ih =>
    intro l
    simp only [heapPop]
    exact ((ih _).trans (siftDownGo_perm less d n first (n+1) _ 0)).trans
      (swapL_perm d l first (first+n))

theorem heapSortGo_perm {α : Type} (less : α → α → Bool) (d : α) (l : List α) (lo b : Nat) :
    (heapSortGo less d l lo b).Perm l := by
  unfold heapSortGo
  exact (heapPop_perm less d lo (b-lo) _).trans (heapBuild_perm less d (b-lo) lo _ l)

theorem revLoop_perm {α : Type} (d : α) :
    ∀ (fuel : Nat) (l : List α) (i j : Nat), (revLoop d l i j fuel).Perm l := by
  intro fuel
  induction fuel with
  | zero => intro l i j; simp [revLoop]
  | succ fuel ih =>
    intro l i j
    simp only [revLoop]
    split
    · exact (ih _ _ _).trans (swapL_perm d l i j)
    · exact List.Perm.refl l

theorem reverseRangeGo_perm {α : Type} (d : α) (l : List α) (lo b : Nat) :
    (reverseRangeGo d l lo b).Perm l :=
  revLoop_perm d b l lo (b-1)

theorem pisShiftLeft_perm {α : Type} (less : α → α → Bool) (d : α) :
    ∀ (j : Nat) (l : List α), (pisShiftLeft less d l j).Perm l := by
  intro j
  induction j with
  | zero => intro l; simp [pisShiftLeft]
  | succ j ih =>
    intro l
    simp only [pisShiftLeft]
    split
    · exact (ih _).trans (swapL_perm d l (j+1) j)
    · exact List.Perm.refl l

theorem pisShiftRight_perm {α : Type} (less : α → α → Bool) (d : α) (b : Nat) :
    ∀ (fuel : Nat) (l : List α) (j : Nat), (pisShiftRight less d b l j fuel).Perm l := by
  intro fuel
  induction fuel with
  | zero => intro l j; simp [pisShiftRight]
  | succ fuel ih =>
    intro l j
    simp only [pisShiftRight]
    split
    · split
      · exact (ih _ _).trans (swapL_perm d l j (j-1))
      · exact List.Perm.refl l
    · exact List.Perm.refl l

theorem tryQuickIns_perm {α : Type} (less : α → α → Bool) (d : α) (lo b : Nat) :
    ∀ (steps : Nat) (l : List α) (i : Nat), (tryQuickIns less d lo b l i steps).1.Perm l := by
  intro steps
  induction steps with
  | zero => intro l i; simp [tryQuickIns]
  | succ steps ih =>
    intro l i
    simp only [tryQuickIns]
    repeat' split
    all_goals first
      | exact List.Perm.refl l
      | exact (ih _ _).trans (((pisShiftRight_perm less d b (b+1) _ _).trans
          (pisShiftLeft_perm less d _ _)).trans (swapL_perm d l _ _))
      | exact (ih _ _).trans ((pisShiftRight_perm less d b (b+1) _ _).trans
          (swapL_perm d l _ _))
      | exact (ih _ _).trans ((pisShiftLeft_perm less d _ _).trans (swapL_perm d l _ _))
      | exact (ih _ _).trans (swapL_perm d l _ _)

theorem breakPatternsGo_perm {α : Type} (d : α) (l : List α) (lo b : Nat) :
    (breakPatternsGo d l lo b).Perm l := by
  simp only [breakPatternsGo]
  repeat' split
  all_goals first
    | exact List.Perm.refl l
    | exact ((swapL_perm d _ _ _).trans (swapL_perm d _ _ _)).trans (swapL_perm d l _ _)

theorem partitionLoop_perm {α : Type} (less : α → α → Bool) (d : α) (lo b : Nat) :
    ∀ (fuel : Nat) (l : List α) (i j : Nat), (partitionLoop less d lo b l i j fuel).1.Perm l := by
  intro fuel
  induction fuel with
  | zero => intro l i j; simp [partitionLoop]
  | succ fuel ih =>
    intro l i j
    simp only [partitionLoop]
    split
    · exact List.Perm.refl l
    · exact (ih _ _ _).trans (swapL_perm d l _ _)

theorem partitionGo_perm {α : Type} (less : α → α → Bool) (d : α) (l : List α) (lo b pivot : Nat) :
    (partitionGo less d l lo b pivot).1.Perm l := by
  simp only [partitionGo]
  repeat' split
  all_goals first
    | exact (swapL_perm d _ _ _).trans (swapL_perm d l lo pivot)
    | exact ((swapL_perm d _ _ _).trans
        ((partitionLoop_perm less d lo b (b+2) _ _ _).trans (swapL_perm d _ _ _))).trans
        (swapL_perm d l lo pivot)

theorem peLoop_perm {α : Type} (less : α → α → Bool) (d : α) (lo : Nat) :
    ∀ (fuel : Nat) (l : List α) (i j : Nat), (peLoop less d lo l i j fuel).1.Perm l := by
  intro fuel
  induction fuel with
  | zero => intro l i j; simp [peLoop]
  | succ fuel ih =>
    intro l i j
    simp only [peLoop]
    split
    · exact List.Perm.refl l
    · exact (ih _ _ _).trans (swapL_perm d l _ _)

theorem partitionEqualGo_perm {α : Type} (less : α → α → Bool) (d : α) (l : List α)
    (lo b pivot : Nat) : (partitionEqualGo less d l lo b pivot).1.Perm l := by
  simp only [partitionEqualGo]
  exact (peLoop_perm less d lo (b+2) _ _ _).trans (swapL_perm d l lo pivot)

set_option maxHeartbeats 1000000 in
theorem pdqsortGo_perm {α : Type} (less : α → α → Bool) (d : α) :
    ∀ (fuel : Nat) (l : List α) (lo b limit : Nat) (wb wp : Bool),
      (pdqsortGo less d l lo b limit wb wp fuel).Perm l := by
  intro fuel
  induction fuel with
  | zero => intro l lo b limit wb wp; simp [pdqsortGo]
  | succ fuel ih =>
    intro l lo b limit wb wp
    simp only [pdqsortGo]
    split
    · exact insertionSortGo_perm less d l lo b
    · split
      · exact heapSortGo_perm less d l lo b
      · have pA : (if !wb then breakPatternsGo d l lo b else l).Perm l := by
          split
          · exact breakPatternsGo_perm d l lo b
          · exact List.Perm.refl l
        set lA : List α := if !wb then breakPatternsGo d l lo b else l with hA
        set limitA : Nat := if !wb then limit - 1 else limit with hLim
        set pv : Nat × SortedHint := choosePivotGo less d lA lo b with hPv
        have pB : (if pv.2 = SortedHint.decreasing then reverseRangeGo d lA lo b else lA).Perm lA := by
          split
          · exact reverseRangeGo_perm d lA lo b
          · exact List.Perm.refl lA
        set lB : List α := if pv.2 = SortedHint.decreasing then reverseRangeGo d lA lo b else lA
          with hB
        set pivot : Nat := if pv.2 = SortedHint.decreasing then (b-1) - (pv.1 - lo) else pv.1
          with hPiv
        set hint : SortedHint := if pv.2 = SortedHint.decreasing then SortedHint.increasing else pv.2
          with hHint
        have pT : (if wb && wp && (hint == SortedHint.increasing)
            then tryQuickIns less d lo b lB (lo+1) 5 else (lB, false)).1.Perm lB := by
          split
          · exact tryQuickIns_perm less d lo b 5 lB (lo+1)
          · exact List.Perm.refl lB
        set tq : List α × Bool := if wb && wp && (hint == SortedHint.increasing)
            then tryQuickIns less d lo b lB (lo+1) 5 else (lB, false) with hTq
        have pC : tq.1.Perm l := pT.trans (pB.trans pA)
        split
        · exact pC
        · split
          · exact (ih _ _ _ _ _ _).trans ((partitionEqualGo_perm less d tq.1 lo b pivot).trans pC)
          · split
            · exact ((ih _ _ _ _ _ _).trans (ih _ _ _ _ _ _)).trans
                ((partitionGo_perm less d tq.1 lo b pivot).trans pC)
            · exact ((ih _ _ _ _ _ _).trans (ih _ _ _ _ _ _)).trans
                ((partitionGo_perm less d tq.1 lo b pivot).trans pC)

theorem goSortSlice_perm {α : Type} (less : α → α → Bool) (d : α) (l : List α) :
    (goSortSlice less d l).Perm l := by
  simp only [goSortSlice]
  exact pdqsortGo_perm less d _ l 0 l.length (bitsLen l.length) true true

theorem sortEventsGo_perm (l : List logEvent) : (sortEventsGo l).Perm l :=
  goSortSlice_perm lessFunc defaultLogEvent l

theorem mem_sortEventsGo {e : logEvent} {l : List logEvent} (h : e ∈ l) : e ∈ sortEventsGo l :=
  (sortEventsGo_perm l).mem_iff.mpr h

/-! ### Collector `add` facts and session invariants -/

theorem add_pastEventsCollected (c : logCollector) (e : logEvent) :
    (c.add e).pastEventsCollected = c.pastEventsCollected := by
  simp only [logCollector.add]
  repeat' split
  all_goals rfl

theorem add_eventCh_of_not_collected (c : logCollector) (e : logEvent)
    (h : c.pastEventsCollected = false) : (c.add e).eventCh = c.eventCh := by
  simp only [logCollector.add]
  repeat' split
  all_goals first
    | rfl
    | (next hg => exact absurd h (by simpa using hg))

theorem add_events_of_collected (c : logCollector) (e : logEvent)
    (h : c.pastEventsCollected = true) : (c.add e).events = c.events := by
  simp only [logCollector.add]
  repeat' split
  all_goals first
    | rfl
    | (next hg => exact absurd h (by simpa using hg))

theorem phaseSeparated_of_all_backfill :
    ∀ l : List OutputItem, (l.all fun it => !isLiveItem it) = true → phaseSeparated l = true := by
  intro l
  induction l with
  | nil => intro _; rfl
  | cons it rest ih =>
    intro h
    simp only [List.all_cons, Bool.and_eq_true] at h
    cases it with
    | backfill e =>
      simp only [phaseSeparated]
      exact ih h.2
    | live e => simp [isLiveItem] at h

theorem phaseSeparated_append_live (e : logEvent) :
    ∀ l : List OutputItem, phaseSeparated l = true →
      phaseSeparated (l ++ [OutputItem.live e]) = true := by
  intro l
  induction l with
  | nil => intro _; rfl
  | cons it rest ih =>
    intro h
    cases it with
    | backfill x =>
      simp only [List.cons_append, phaseSeparated] at h ⊢
      exact ih h
    | live x =>
      simp only [List.cons_append, phaseSeparated] at h ⊢
      simp [List.all_append, h, isLiveItem]

theorem all_backfill_append (l : List OutputItem) (xs : List logEvent)
    (h : (l.all fun it => !isLiveItem it) = true) :
    ((l ++ xs.map OutputItem.backfill).all fun it => !isLiveItem it) = true := by
  simp only [List.all_append, Bool.and_eq_true]
  refine ⟨h, ?_⟩
  simp only [List.all_eq_true]
  intro a ha
  obtain ⟨x, _, rfl⟩ := List.mem_map.mp ha
  rfl

theorem sessionInv_initial : SessionInv initialSession := by
  refine ⟨rfl, fun _ => ⟨rfl, rfl⟩, fun h => ?_⟩
  simp [initialSession, newLogCollector] at h

theorem sessionInv_step (s : SessionState) (a : SessionAction) (h : SessionInv s) :
    SessionInv ((sessionStep s a).getD s) := by
  obtain ⟨h1, h2, h3⟩ := h
  cases a with
  | submit e =>
    simp only [sessionStep, Option.getD_some]
    refine ⟨h1, ?_, ?_⟩
    · intro hf
      rw [add_pastEventsCollected] at hf
      refine ⟨(h2 hf).1, ?_⟩
      rw [add_eventCh_of_not_collected s.collector e hf]
      exact (h2 hf).2
    · intro hf
      rw [add_pastEventsCollected] at hf
      obtain ⟨hi, ha, hm⟩ := h3 hf
      refine ⟨hi, ha, ?_⟩
      rw [add_events_of_collected s.collector e hf]
      exact hm
  | signalDone isInstance =>
    simp only [sessionStep]
    repeat' split
    all_goals first
      | exact ⟨h1, h2, h3⟩
      | exact ⟨h1, h2, fun hf => ⟨rfl, (h3 hf).2.1, (h3 hf).2.2⟩⟩
      | exact ⟨h1, h2, fun hf => ⟨(h3 hf).1, rfl, (h3 hf).2.2⟩⟩
  | drain =>
    simp only [sessionStep]
    split
    · next hg =>
      simp only [Bool.and_eq_true, Bool.not_eq_true'] at hg
      obtain ⟨⟨hi, ha⟩, hf⟩ := hg
      have hall := (h2 hf).1
      refine ⟨?_, ?_, ?_⟩
      · exact phaseSeparated_of_all_backfill _ (all_backfill_append _ _ hall)
      · intro hc; simp at hc
      · intro _
        refine ⟨hi, ha, ?_⟩
        intro e he
        refine List.mem_append_right _ ?_
        exact List.mem_map_of_mem OutputItem.backfill (mem_sortEventsGo he)
    · exact ⟨h1, h2, h3⟩
  | deliverLive =>
    simp only [sessionStep]
    split
    · next hf =>
      cases hch : s.collector.eventCh with
      | nil => simp only [hch, Option.getD_none]; exact ⟨h1, h2, h3⟩
      | cons e rest =>
        simp only [hch, Option.getD_some]
        refine ⟨phaseSeparated_append_live e _ h1, ?_, ?_⟩
        · intro hc; simp [hf] at hc
        · intro _
          obtain ⟨hi, ha, hm⟩ := h3 hf
          exact ⟨hi, ha, fun e2 he2 => List.mem_append_left _ (hm e2 he2)⟩
    · exact ⟨h1, h2, h3⟩

theorem sessionInv_run (s : SessionState) (h : SessionInv s) :
    ∀ actions : List SessionAction, SessionInv (runFrom s actions) := by
  intro actions
  induction actions generalizing s with
  | nil => exact h
  | cons a rest ih =>
    simp only [runFrom, List.foldl_cons]
    exact ih _ (sessionInv_step s a h)

theorem sessionFlag_step (s : SessionState) (a : SessionAction)
    (h : s.collector.pastEventsCollected = true) :
    ((sessionStep s a).getD s).collector.pastEventsCollected = true := by
  cases a with
  | submit e =>
    simp only [sessionStep, Option.getD_some]
    rw [add_pastEventsCollected]; exact h
  | signalDone isInstance =>
    simp only [sessionStep]
    repeat' split
    all_goals exact h
  | drain =>
    simp only [sessionStep]
    split
    · next hg => simp [h] at hg
    · exact h
  | deliverLive =>
    cases hch : s.collector.eventCh with
    | nil => simp [sessionStep, h, hch]
    | cons e rest => simp [sessionStep, h, hch]

theorem sessionFlag_run (s : SessionState) (h : s.collector.pastEventsCollected = true) :
    ∀ actions : List SessionAction, (runFrom s actions).collector.pastEventsCollected = true := by
  intro actions
  induction actions generalizing s with
  | nil => exact h
  | cons a rest ih =>
    simp only [runFrom, List.foldl_cons]
    exact ih _ (sessionFlag_step s a h)

/-- Claim C1 (phase barrier): for every interleaving of collector
submissions, first-pass signals, the drain and live deliveries, (1) no
backfill line is printed after a live line — hence no live-phase event is
printed before the backfill output is complete; (2) the flip to LIVE can
only have happened after both fetchers signaled caught-up; (3) once flipped,
every buffered backfill event has been printed; (4) a second drain is
disabled (the flip happens at most once); (5) the flip is irreversible under
every continuation. -/
theorem session_phase_barrier (actions : List SessionAction) :
    phaseSeparated (runSession actions).output = true
    ∧ ((runSession actions).collector.pastEventsCollected = true →
        (runSession actions).instSignaled = true ∧ (runSession actions).appSignaled = true)
    ∧ ((runSession actions).collector.pastEventsCollected = true →
        ∀ e ∈ (runSession actions).collector.events,
          OutputItem.backfill e ∈ (runSession actions).output)
    ∧ ((runSession actions).collector.pastEventsCollected = true →
        sessionStep (runSession actions) SessionAction.drain = none)
    ∧ ((runSession actions).collector.pastEventsCollected = true →
        ∀ more : List SessionAction,
          (runFrom (runSession actions) more).collector.pastEventsCollected = true) := by
  have hinv := sessionInv_run initialSession sessionInv_initial actions
  obtain ⟨h1, h2, h3⟩ := hinv
  refine ⟨h1, fun hf => ⟨(h3 hf).1, (h3 hf).2.1⟩, fun hf => (h3 hf).2.2,
    fun hf => ?_, fun hf more => sessionFlag_run _ hf more⟩
  simp [sessionStep, hf]

/-- Witness for `session_phase_barrier` at the concrete schedule
`scheduleDemo`, which reaches the LIVE phase. -/
theorem session_phase_barrier_witness :
    OutputItem.backfill (mkEv 5 "x1") ∈ (runSession scheduleDemo).output
    ∧ sessionStep (runSession scheduleDemo) SessionAction.drain = none := by
  have h := session_phase_barrier scheduleDemo
  exact ⟨h.2.2.1 (by decide) (mkEv 5 "x1") (by decide), h.2.2.2.1 (by decide)⟩

theorem add_count (c : logCollector) (e : logEvent)
    (h : ∀ id, countId id (collectedEvents c) = if c.seenEvents.contains id then 1 else 0) :
    ∀ id, countId id (collectedEvents (c.add e))
      = if (c.add e).seenEvents.contains id then 1 else 0 := by
  intro id
  have hbase := h id
  simp only [logCollector.add]
  split
  · exact h id
  · next hseen =>
    have hnotmem : e.eventId ∉ c.seenEvents := by simpa using hseen
    split
    all_goals by_cases hid : e.eventId = id
    all_goals by_cases hmem : id ∈ c.seenEvents
    all_goals
      simp only [collectedEvents, countId, List.countP_append, List.countP_cons,
        List.countP_nil, Nat.zero_add] at hbase ⊢
    all_goals
      simp [hid, hmem, hnotmem] at hbase ⊢
    all_goals simp_all
    all_goals
      first
      | omega
      | (rw [List.countP_eq_zero.mpr (by simpa using hbase.1),
             List.countP_eq_zero.mpr (by simpa using hbase.2)]
         all_goals first
         | omega
         | rw [if_neg (fun hh => hid hh.symm)])

theorem collector_count_inv :
    ∀ (ops : List CollectorOp) (c : logCollector),
      (∀ id, countId id (collectedEvents c) = if c.seenEvents.contains id then 1 else 0) →
      ∀ id, countId id (collectedEvents (ops.foldl applyCollectorOp c))
        = if (ops.foldl applyCollectorOp c).seenEvents.contains id then 1 else 0 := by
  intro ops
  induction ops with
  | nil => intro c h id; exact h id
  | cons op rest ih =>
    intro c h id
    simp only [List.foldl_cons]
    refine ih _ ?_ id
    cases op with
    | flip => intro id2; simpa [applyCollectorOp, collectedEvents] using h id2
    | submit e => exact add_count c e h

theorem collector_seen_step (c : logCollector) (op : CollectorOp) (id : String)
    (h : c.seenEvents.contains id = true) :
    (applyCollectorOp c op).seenEvents.contains id = true := by
  have hm : id ∈ c.seenEvents := by simpa using h
  cases op with
  | flip => exact h
  | submit e =>
    simp only [applyCollectorOp, logCollector.add]
    repeat' split
    all_goals simp [hm]

theorem collector_seen_mono :
    ∀ (ops : List CollectorOp) (c : logCollector) (id : String),
      c.seenEvents.contains id = true →
      (ops.foldl applyCollectorOp c).seenEvents.contains id = true := by
  intro ops
  induction ops with
  | nil => intro c id h; exact h
  | cons op rest ih =>
    intro c id h
    simp only [List.foldl_cons]
    exact ih _ id (collector_seen_step c op id h)

theorem collector_seen_of_submit :
    ∀ (ops : List CollectorOp) (c : logCollector) (e : logEvent),
      CollectorOp.submit e ∈ ops →
      (ops.foldl applyCollectorOp c).seenEvents.contains e.eventId = true := by
  intro ops
  induction ops with
  | nil => intro c e h; simp at h
  | cons op rest ih =>
    intro c e h
    simp only [List.foldl_cons]
    rcases List.mem_cons.mp h with heq | hmem
    · subst heq
      refine collector_seen_mono rest _ e.eventId ?_
      simp only [applyCollectorOp, logCollector.add]
      repeat' split
      all_goals simp_all
    · exact ih _ e hmem

/-- Claim C3 (idempotent submission): over every sequence of submissions
and phase flips, the collector accepts at most one event per `eventId`, and
exactly one for every id that was actually submitted — so an event
submitted more than once, in any phase, from either fetcher, is emitted
exactly once. -/
theorem submit_idempotent (ops : List CollectorOp) :
    (∀ id, countId id (collectedEvents (runCollector ops)) ≤ 1)
    ∧ (∀ e : logEvent, CollectorOp.submit e ∈ ops →
        countId e.eventId (collectedEvents (runCollector ops)) = 1) := by
  have hcount := collector_count_inv ops newLogCollector
    (fun id => by simp [collectedEvents, newLogCollector, countId])
  constructor
  · intro id
    rw [show runCollector ops = ops.foldl applyCollectorOp newLogCollector from rfl,
      hcount id]
    split <;> omega
  · intro e he
    rw [show runCollector ops = ops.foldl applyCollectorOp newLogCollector from rfl,
      hcount e.eventId, collector_seen_of_submit ops newLogCollector e he]
    rfl

/-- Witness for `submit_idempotent`: the id `"dup"` is submitted three
times (twice during backfill, once after the flip) and is emitted exactly
once. -/
theorem submit_idempotent_witness :
    countId "dup" (collectedEvents (runCollector
      [CollectorOp.submit (mkEv 1 "dup"), CollectorOp.submit (mkEv 1 "dup"),
       CollectorOp.flip, CollectorOp.submit (mkEv 2 "dup")])) = 1 :=
  (submit_idempotent _).2 (mkEv 1 "dup") (by decide)

/-- Counterexample to claim C2's stability part: in the submission order
`ce13`, event `"b"` arrives before event `"c"` and both carry timestamp 10,
yet the session's drain (which sorts with Go's `sort.Slice`, i.e. the
embedded pdqsort) prints `"c"` before `"b"`; the result still satisfies
`sort.Slice`'s documented contract, which does not promise stability. -/
theorem backfill_sort_unstable_counterexample :
    ce13.findIdx (fun e => e == mkEv 10 "b") < ce13.findIdx (fun e => e == mkEv 10 "c")
    ∧ (mkEv 10 "b").timestamp = (mkEv 10 "c").timestamp
    ∧ (runSession scheduleC2).output.findIdx
        (fun it => it == OutputItem.backfill (mkEv 10 "c"))
      < (runSession scheduleC2).output.findIdx
        (fun it => it == OutputItem.backfill (mkEv 10 "b"))
    ∧ sortSliceContract ce13 (sortEventsGo ce13) := by
  refine ⟨by decide, rfl, by decide, by decide, by decide⟩

/-- Claim C2 amended: the backfill output delivered by the drain is sorted
by `timestampMillis` ascending — under `sort.Slice`'s contract, every output
position with a strictly smaller timestamp comes earlier, regardless of
submission order, and the output is exactly the buffered events — but equal
timestamps may be printed in either order (the sort is not stable). -/
theorem backfill_sorted_by_timestamp (l out : List logEvent) (h : sortSliceContract l out) :
    (∀ (i j : Fin out.length), (out.get i).timestamp < (out.get j).timestamp → (i : Nat) < j)
    ∧ (∀ e : logEvent, e ∈ l ↔ e ∈ out) := by
  obtain ⟨hperm, hpair⟩ := h
  constructor
  · intro i j hlt
    by_contra hle
    push_neg at hle
    rcases Nat.lt_or_ge (j : Nat) (i : Nat) with hji | hij
    · have hp := List.pairwise_iff_get.mp hpair j i hji
      have : ¬ ((out.get i).timestamp < (out.get j).timestamp) := by
        simpa [lessFunc] using hp
      exact this hlt
    · have : (i : Nat) = j := le_antisymm (le_trans hij (le_refl _)) hle
      have hij2 : i = j := Fin.ext this
      subst hij2
      exact lt_irrefl _ hlt
  · intro e
    exact hperm.mem_iff

/-- Witness for `backfill_sorted_by_timestamp` at a concrete buffer and a
concrete contract-satisfying output. -/
theorem backfill_sorted_by_timestamp_witness :
    mkEv 10 "b" ∈ ([mkEv 5 "z", mkEv 10 "b"] : List logEvent) :=
  ((backfill_sorted_by_timestamp [mkEv 10 "b", mkEv 5 "z"] [mkEv 5 "z", mkEv 10 "b"]
    ⟨by decide, by decide⟩).2 (mkEv 10 "b")).mp (by decide)

/-- Counterexample to claim C4: in watch mode, a pagination error in the
first cycle terminates the source's polling loop with an error — the second,
healthy cycle of `scriptPageError` is never polled (`polls = 1`) — and the
first-pass signal is never sent (`doneSignals = 0`), so the claim that the
loop merely logs and retries next cycle is false on the code. -/
theorem watch_error_kills_loop_counterexample :
    (streamLogs (updateInputInstance "arn") true false "instance"
        (initStreamState newLogCollector) scriptPageError).2 = some "error fetching logs"
    ∧ (streamLogs (updateInputInstance "arn") true false "instance"
        (initStreamState newLogCollector) scriptPageError).1.polls = 1
    ∧ (streamLogs (updateInputInstance "arn") true false "instance"
        (initStreamState newLogCollector) scriptPageError).1.doneSignals = 0 :=
  ⟨rfl, rfl, rfl⟩

/-- Claim C4 amended: a failing `updateInput` (missing context) only skips
the current cycle — the loop signals (first pass) and, in watch mode,
retries with the next cycle — but a transport/pagination error during page
fetching returns an error that terminates this source's loop immediately,
in watch mode and one-shot mode alike, without sending the first-pass
signal and without ever reaching the remaining cycles. -/
theorem stream_error_policy
    (updIn : LogFetcher → FilterLogEventsInput → FilterLogEventsInput × Bool)
    (watch noColor : Bool) (label : String) (st : StreamState) (cy : PollCycle)
    (rest : List PollCycle) :
    ((updIn cy.snap st.input).2 = true →
      (runPages label noColor st.collector 0 cy.pages).2.2 = false →
        (streamLogs updIn watch noColor label st (cy :: rest)).2 = some "error fetching logs"
        ∧ (streamLogs updIn watch noColor label st (cy :: rest)).1.doneSignals = st.doneSignals
        ∧ (streamLogs updIn watch noColor label st (cy :: rest)).1.firstPassDone
            = st.firstPassDone
        ∧ streamLogs updIn watch noColor label st (cy :: rest)
            = streamLogs updIn watch noColor label st [cy])
    ∧ ((updIn cy.snap st.input).2 = false →
        streamLogs updIn watch noColor label st (cy :: rest)
          = (if watch then
              streamLogs updIn watch noColor label
                (signalFirst { st with input := (updIn cy.snap st.input).1 }) rest
             else (signalFirst { st with input := (updIn cy.snap st.input).1 }, none))) := by
  constructor
  · intro h1 h2
    simp only [streamLogs, h1, h2]
    simp
  · intro h1
    simp only [streamLogs, h1]
    simp

/-- Witness for `stream_error_policy`: on `scriptPageError`'s first cycle
the loop's outcome is already fixed — the healthy second cycle is
unreachable. -/
theorem stream_error_policy_witness :
    streamLogs (updateInputInstance "arn") true false "instance"
        (initStreamState newLogCollector) scriptPageError
      = streamLogs (updateInputInstance "arn") true false "instance"
        (initStreamState newLogCollector) (scriptPageError.take 1) := by
  have h := stream_error_policy (updateInputInstance "arn") true false "instance"
    (initStreamState newLogCollector)
    { snap := snapResolved, pages := [PageResult.fail], nowMillis := 600000 }
    (scriptPageError.drop 1)
  exact (h.1 (by decide) (by decide)).2.2.2

/-- Counterexample to claim C5: a poll that observes an event at t = 10000
advances the cursor to 10001, and an empty poll 500 ms later resets it to
`now − 1000 = 9500 < 10001` — the next poll's `startTimeMillis` does NOT
strictly exceed the previous poll's. -/
theorem cursor_regression_counterexample :
    (streamLogs (updateInputInstance "arn") true false "instance"
        (initStreamState newLogCollector) (scriptCursorBack.take 1)).1.input.startTime
      = some 10001
    ∧ (streamLogs (updateInputInstance "arn") true false "instance"
        (initStreamState newLogCollector) scriptCursorBack).1.input.startTime = some 9500
    ∧ (9500 : Int) < 10001 :=
  ⟨rfl, rfl, by decide⟩

theorem addRaw_snd_ge (label : String) (noColor : Bool) :
    ∀ (evs : List RawEvent) (p : logCollector × Int),
      p.2 ≤ (evs.foldl (addRaw label noColor) p).2 := by
  intro evs
  induction evs with
  | nil => intro p; exact le_refl _
  | cons re rest ih =>
    intro p
    simp only [List.foldl_cons]
    refine le_trans ?_ (ih _)
    simp only [addRaw]
    split <;> omega

theorem addRaw_snd_mem (label : String) (noColor : Bool) :
    ∀ (evs : List RawEvent) (p : logCollector × Int) (re : RawEvent), re ∈ evs →
      re.timestamp ≤ (evs.foldl (addRaw label noColor) p).2 := by
  intro evs
  induction evs with
  | nil => intro p re h; simp at h
  | cons r rest ih =>
    intro p re h
    simp only [List.foldl_cons]
    rcases List.mem_cons.mp h with heq | hmem
    · subst heq
      refine le_trans ?_ (addRaw_snd_ge label noColor rest _)
      simp only [addRaw]
      split <;> omega
    · exact ih _ re hmem

theorem runPages_snd_ge (label : String) (noColor : Bool) :
    ∀ (ps : List PageResult) (c : logCollector) (t : Int),
      t ≤ (runPages label noColor c t ps).2.1 := by
  intro ps
  induction ps with
  | nil => intro c t; exact le_refl _
  | cons pg rest ih =>
    intro c t
    cases pg with
    | fail => exact le_refl _
    | ok evs =>
      simp only [runPages]
      exact le_trans (addRaw_snd_ge label noColor evs (c, t)) (ih _ _)

theorem runPages_mem_ge (label : String) (noColor : Bool) :
    ∀ (ps : List PageResult) (c : logCollector) (t : Int) (re : RawEvent),
      re ∈ pagesEvents ps → re.timestamp ≤ (runPages label noColor c t ps).2.1 := by
  intro ps
  induction ps with
  | nil => intro c t re h; simp [pagesEvents] at h
  | cons pg rest ih =>
    intro c t re h
    cases pg with
    | fail => simp [pagesEvents] at h
    | ok evs =>
      simp only [pagesEvents] at h
      simp only [runPages]
      rcases List.mem_append.mp h with hin | hin
      · exact le_trans (addRaw_snd_mem label noColor evs (c, t) re hin)
          (runPages_snd_ge label noColor rest _ _)
      · exact ih _ _ re hin

theorem runPages_empty_lastTs (label : String) (noColor : Bool) :
    ∀ (ps : List PageResult) (c : logCollector) (t : Int),
      pagesEvents ps = [] → (runPages label noColor c t ps).2.2 = true →
      (runPages label noColor c t ps).2.1 = t := by
  intro ps
  induction ps with
  | nil => intro c t _ _; rfl
  | cons pg rest ih =>
    intro c t hemp hok
    cases pg with
    | fail => simp [runPages] at hok
    | ok evs =>
      simp only [pagesEvents, List.append_eq_nil] at hemp
      obtain ⟨he, hrest⟩ := hemp
      subst he
      simp only [runPages, List.foldl_nil] at hok ⊢
      exact ih c t hrest hok

/-- Claim C5 amended: after a completed poll whose cursor going in was
`prev`, the new cursor is `lastTimestamp + 1` when an event was observed —
strictly exceeding `prev` whenever the source honours the window contract
(some observed event has timestamp ≥ `prev` > 0) — and `now − 1000` when
the poll was empty, which exceeds `prev` only when the clock has advanced
more than one second past it; a fast re-poll after a fresh event may move
the cursor backwards. -/
theorem cursor_progress
    (updIn : LogFetcher → FilterLogEventsInput → FilterLogEventsInput × Bool)
    (watch noColor : Bool) (label : String) (st : StreamState) (cy : PollCycle) (prev : Int)
    (hok : (updIn cy.snap st.input).2 = true)
    (hprev : (updIn cy.snap st.input).1.startTime = some prev)
    (hpages : (runPages label noColor st.collector 0 cy.pages).2.2 = true) :
    ∃ t : Int,
      (streamLogs updIn watch noColor label st [cy]).1.input.startTime = some t
      ∧ ((∃ re ∈ pagesEvents cy.pages, prev ≤ re.timestamp) → 0 < prev → prev < t)
      ∧ (pagesEvents cy.pages = [] → t = cy.nowMillis - 1000) := by
  simp only [streamLogs, hok, hpages]
  refine ⟨if (runPages label noColor st.collector 0 cy.pages).2.1 > 0
    then (runPages label noColor st.collector 0 cy.pages).2.1 + 1
    else cy.nowMillis - 1000, ?_, ?_, ?_⟩
  · cases watch <;> simp [streamLogs, signalFirst] <;> split <;> rfl
  · rintro ⟨re, hre, hge⟩ hpos
    have hlast : re.timestamp ≤ (runPages label noColor st.collector 0 cy.pages).2.1 :=
      runPages_mem_ge label noColor cy.pages st.collector 0 re hre
    rw [if_pos (by omega)]
    omega
  · intro hemp
    rw [runPages_empty_lastTs label noColor cy.pages st.collector 0 hemp hpages]
    rfl

/-- Witness for `cursor_progress`: a resolved context whose window starts at
490000 and a poll returning one event at t = 600500 advance the cursor
strictly (to 600501). -/
theorem cursor_progress_witness :
    ∃ t : Int,
      (streamLogs (updateInputInstance "arn") true false "instance"
        (initStreamState newLogCollector)
        [{ snap := snapResolved,
           pages := [PageResult.ok [{ message := "ok", stream := "i-0abc/x",
                                      timestamp := 600500, eventId := "E1" }]],
           nowMillis := 601000 }]).1.input.startTime = some t
      ∧ (490000 : Int) < t := by
  obtain ⟨t, h1, h2, h3⟩ := cursor_progress (updateInputInstance "arn") true false "instance"
    (initStreamState newLogCollector)
    { snap := snapResolved,
      pages := [PageResult.ok [{ message := "ok", stream := "i-0abc/x",
                                 timestamp := 600500, eventId := "E1" }]],
      nowMillis := 601000 } 490000 (by decide) (by decide) (by decide)
  refine ⟨t, h1, ?_⟩
  refine h2 ⟨{ message := "ok", stream := "i-0abc/x", timestamp := 600500, eventId := "E1" },
    by decide, by decide⟩ (by decide)

/-- Claim C8 (missing-context termination): in a one-shot session whose
instance ID is never resolved, the instance-source loop polls the source
zero times (the filter constructor fails and the cycle is skipped), yet
still signals first-pass-complete exactly once after that first skipped
iteration and returns without error, leaving the collector untouched; and
once both sources have signaled, the driver's drain is enabled, so the
session terminates instead of hanging on the barrier. -/
theorem missing_instance_one_shot (c0 : logCollector) (arn : String) (noColor : Bool)
    (cy : PollCycle) (rest : List PollCycle) (h : cy.snap.instanceID = "") :
    (streamLogs (updateInputInstance arn) false noColor "instance"
        (initStreamState c0) (cy :: rest)).1.polls = 0
    ∧ (streamLogs (updateInputInstance arn) false noColor "instance"
        (initStreamState c0) (cy :: rest)).1.doneSignals = 1
    ∧ (streamLogs (updateInputInstance arn) false noColor "instance"
        (initStreamState c0) (cy :: rest)).2 = none
    ∧ (streamLogs (updateInputInstance arn) false noColor "instance"
        (initStreamState c0) (cy :: rest)).1.collector = c0
    ∧ sessionStep (runFrom initialSession
        [SessionAction.signalDone true, SessionAction.signalDone false])
        SessionAction.drain ≠ none := by
  have hfail : (updateInputInstance arn cy.snap emptyFilterInput).2 = false := by
    simp only [updateInputInstance]
    cases hwj : cy.snap.workflowJob with
    | none => rfl
    | some wj => simp [h]
  refine ⟨?_, ?_, ?_, ?_, by decide⟩
  all_goals simp [streamLogs, hfail, signalFirst, initStreamState]

/-- Witness for `missing_instance_one_shot` at a concrete unresolved
context snapshot. -/
theorem missing_instance_one_shot_witness :
    (streamLogs (updateInputInstance "arn") false false "instance"
        (initStreamState newLogCollector)
        [{ snap := snapNoInstance, pages := [], nowMillis := 0 }]).1.doneSignals = 1
    ∧ (streamLogs (updateInputInstance "arn") false false "instance"
        (initStreamState newLogCollector)
        [{ snap := snapNoInstance, pages := [], nowMillis := 0 }]).1.polls = 0 := by
  have h := missing_instance_one_shot newLogCollector "arn" false
    { snap := snapNoInstance, pages := [], nowMillis := 0 } [] (by decide)
  exact ⟨h.2.1, h.1⟩

/-- Claim C9 (job token extraction): if the oracle result of `url.Parse`
has scheme `https` and a path splitting into more than one segment, the
extracted job id is the final path segment; for any non-`https` scheme, a
parse failure, or an `https` URL without path segments, the whole input is
returned unchanged. -/
theorem extract_job_id_spec (input : String) (u : GoURL) :
    (u.scheme = "https" → (goSplitSlash u.path).length > 1 →
      extractJobID (some u) input
        = (goSplitSlash u.path).getD ((goSplitSlash u.path).length - 1) "")
    ∧ (u.scheme ≠ "https" → extractJobID (some u) input = input)
    ∧ extractJobID none input = input
    ∧ (u.scheme = "https" → ¬ (goSplitSlash u.path).length > 1 →
        extractJobID (some u) input = input) := by
  refine ⟨?_, ?_, rfl, ?_⟩
  · intro hs hl
    simp [extractJobID, hs, hl]
  · intro hs
    simp [extractJobID, hs]
  · intro hs hl
    simp [extractJobID, hs, hl]

/-- Witness for `extract_job_id_spec`: a GitHub deep link yields its final
path segment; a bare job id (parsed with empty scheme) is returned
unchanged. -/
theorem extract_job_id_witness :
    extractJobID
        (some { scheme := "https",
                path := "/runs-on/runs-on/actions/runs/12312372848/job/34368864490" })
        "https://github.com/runs-on/runs-on/actions/runs/12312372848/job/34368864490"
      = "34368864490"
    ∧ extractJobID (some { scheme := "", path := "34368864490" }) "34368864490"
      = "34368864490" := by
  constructor
  · have h := (extract_job_id_spec
      "https://github.com/runs-on/runs-on/actions/runs/12312372848/job/34368864490"
      { scheme := "https",
        path := "/runs-on/runs-on/actions/runs/12312372848/job/34368864490" }).1
      rfl (by decide)
    rw [h]
    decide
  · exact (extract_job_id_spec "34368864490" { scheme := "", path := "34368864490" }).2.1
      (by decide)

/-- Claim C6 (code bug): `NewLogsCmd` computes `startTime = now − since`
and stores it in `LogOptions.StartTime`, but no code ever reads that field;
both sources seed their first poll window with `workflowJob.CreatedAt −
10000` ms instead.  At `now = 1000000000`, `CreatedAt = 500000`: the
`--since` values 30m and 2h produce different `LogOptions.StartTime` values
(998200000 vs 992800000), yet the first poll's window start is 490000 in
both cases and never equals `now − since`. -/
theorem since_flag_dead :
    (newLogsCmdOptions 1000000000 (some 1800000) false 5000 "long" false).startTime = 998200000
    ∧ (newLogsCmdOptions 1000000000 (some 7200000) false 5000 "long" false).startTime = 992800000
    ∧ (updateInputInstance "arn-ec2" snapResolved emptyFilterInput).1.startTime = some 490000
    ∧ (updateInputApplication "arn-app" snapResolved emptyFilterInput).1.startTime = some 490000
    ∧ (updateInputInstance "arn-ec2" snapResolved emptyFilterInput).1.startTime
        ≠ some (newLogsCmdOptions 1000000000 (some 1800000) false 5000 "long" false).startTime
    ∧ (updateInputInstance "arn-ec2" snapResolved emptyFilterInput).1.startTime
        ≠ some (newLogsCmdOptions 1000000000 (some 7200000) false 5000 "long" false).startTime :=
  ⟨rfl, rfl, rfl, rfl, by decide, by decide⟩

/-- Counterexample to claim C7: a successful `GetObject` whose payload does
not unmarshal as a workflow job makes `refreshWorkflowJobDetails` return an
error, which `Init` propagates — the session fails to start instead of the
failure being logged and retried. -/
theorem context_error_aborts_init_counterexample :
    initLogFetcher emptyFetcher "job1" false (S3GetResult.okBody (some "not-json"))
      (fun _ => none) S3GetResult.err = Except.error "unmarshal error" := rfl

/-- Claim C7 amended: only `GetObject` failures (including not-found) are
swallowed — `refreshInstanceID` then returns ok with `instanceID` reset to
`""`, and `refreshWorkflowJobDetails` returns ok leaving `workflowJob`
untouched.  A body-read failure or an unmarshal failure, by contrast,
returns an error, and any error from the synchronous refreshes is
propagated by `Init`, preventing the session from starting. -/
theorem context_error_policy (f : LogFetcher) (u : String → Option WorkflowJob) (s : String)
    (r rI : S3GetResult) (jobID : String) (urf : Bool) :
    refreshInstanceID f S3GetResult.err = Except.ok { f with instanceID := "" }
    ∧ refreshWorkflowJobDetails f S3GetResult.err u = Except.ok f
    ∧ refreshInstanceID f (S3GetResult.okBody none) = Except.error "read error"
    ∧ refreshWorkflowJobDetails f (S3GetResult.okBody none) u = Except.error "read error"
    ∧ (u s = none →
        refreshWorkflowJobDetails f (S3GetResult.okBody (some s)) u
          = Except.error "unmarshal error")
    ∧ (∀ e : String,
        refreshWorkflowJobDetails { f with jobID := jobID, useRunFilter := urf } r u
          = Except.error e →
        initLogFetcher f jobID urf r u rI = Except.error e) := by
  refine ⟨rfl, rfl, rfl, rfl, ?_, ?_⟩
  · intro hu
    simp [refreshWorkflowJobDetails, hu]
  · intro e he
    simp [initLogFetcher, he]

/-- Witness for `context_error_policy` at concrete failing reads. -/
theorem context_error_policy_witness :
    refreshWorkflowJobDetails emptyFetcher (S3GetResult.okBody (some "x")) (fun _ => none)
      = Except.error "unmarshal error"
    ∧ initLogFetcher emptyFetcher "j" true (S3GetResult.okBody none) (fun _ => none)
        S3GetResult.err
      = Except.error "read error" := by
  have h := context_error_policy emptyFetcher (fun _ => none) "x" (S3GetResult.okBody none)
    S3GetResult.err "j" true
  exact ⟨h.2.2.2.2.1 rfl, h.2.2.2.2.2 "read error" rfl⟩

/-- Claim C10: any `GetObject` failure (not-found or transient) makes
`refreshInstanceID` return nil while unconditionally resetting the stored
`instanceID` to the empty string — erasing a previously known assignment —
whereas the same failure in `refreshWorkflowJobDetails` returns nil with
the previously fetched workflow metadata left fully intact. -/
theorem refresh_error_asymmetry (f : LogFetcher) (u : String → Option WorkflowJob) :
    refreshInstanceID f S3GetResult.err = Except.ok { f with instanceID := "" }
    ∧ refreshWorkflowJobDetails f S3GetResult.err u = Except.ok f :=
  ⟨rfl, rfl⟩
